import Mathlib

/-!
Verification development for the tile-based flood-fill search engine in
`gff/generate/floodmaps.py` (global-flood-forecasting).

The Python module is shallowly embedded here:
- float arrays become functions into `ℚ` (one channel; the numpy operations
  involved broadcast independently over the channel axis),
- the blend-weight construction (`_weight_matrices`, built with
  `scipy.interpolate.RegularGridInterpolator` over a 3×3 control grid with
  knots `(0, n // 2 - 0.5, n - 1)` on each axis) becomes explicit piecewise
  bilinear interpolation over `ℚ`,
- the frontier-driven search loop of `progressively_grow_floodmaps` becomes a
  step function on an explicit state record, iterated with a fuel argument
  that mirrors the loop bound `len(visit_tiles) < max_tiles`; the while-loop
  unfolding equation is proved below (`progressively_grow_floodmaps_eq`),
- the classification oracle, the edge heuristic and the geometric containment
  test are abstract parameters of the loop, since the loop only branches on
  their results.
-/

/-- One-dimensional piecewise-linear interpolation through the three knots
`k0 < k1 < k2` with values `v0 v1 v2`, evaluated at `t`.  This is what
`scipy.interpolate.RegularGridInterpolator` computes along one axis of the
3-point grid used by `_weight_matrices`. -/
def lin1 (k0 k1 k2 v0 v1 v2 t : ℚ) : ℚ :=
  if t ≤ k1 then v0 + (v1 - v0) * ((t - k0) / (k1 - k0))
  else v1 + (v2 - v1) * ((t - k1) / (k2 - k1))

/-- The middle knot `n // 2 - 0.5` of the interpolation axis of length `n`
(`spaces` in `_weight_matrices`). -/
def half_knot (n : ℕ) : ℚ := ((n / 2 : ℕ) : ℚ) - 1 / 2

/-- Piecewise-bilinear interpolation of a 3×3 control grid `a` over the pixel
rectangle `h × w`, knots `(0, n // 2 - 0.5, n - 1)` on each axis, evaluated at
pixel coordinates `(y, x)`; this is `RegularGridInterpolator(spaces, lores)`
evaluated on `np.indices((h, w))` as done in `_weight_matrices`. -/
def interp2 (h w : ℕ) (a : ℕ → ℕ → ℚ) (y x : ℚ) : ℚ :=
  lin1 0 (half_knot h) ((h : ℚ) - 1)
    (lin1 0 (half_knot w) ((w : ℚ) - 1) (a 0 0) (a 0 1) (a 0 2) x)
    (lin1 0 (half_knot w) ((w : ℚ) - 1) (a 1 0) (a 1 1) (a 1 2) x)
    (lin1 0 (half_knot w) ((w : ℚ) - 1) (a 2 0) (a 2 1) (a 2 2) x)
    y

/-- The weight matrix grid of `_weight_matrices(h, w)`: entry `(i, j)` is the
interpolation of the 3×3 indicator control grid that is 1 at `(i, j)` and 0
elsewhere, evaluated at pixel `(y, x)`. -/
def _weight_matrices (h w i j y x : ℕ) : ℚ :=
  interp2 h w (fun a b => if a = i ∧ b = j then 1 else 0) (y : ℚ) (x : ℚ)

/-- The 8 neighbour logit arrays handed to `average_logits_towards_edges`
(`adjacent` in the source); `none` models a neighbour outside the offset
lattice (`offset_cache` stores `None` there). -/
structure Adjacent (α : Type) where
  tl : Option α
  up : Option α
  tr : Option α
  le : Option α
  ri : Option α
  bl : Option α
  do_ : Option α
  br : Option α

/-- The helper `f(tile, slc, islc, weight)` inside
`average_logits_towards_edges`: 0 for an absent neighbour, otherwise the
neighbour's value at the mirrored source pixel times the weight. -/
def f_contrib (tile : Option (ℕ → ℕ → ℚ)) (iy ix : ℕ) (wgt : ℚ) : ℚ :=
  match tile with
  | none => 0
  | some t => t iy ix * wgt

/-- Shallow embedding of `average_logits_towards_edges` for one channel of an
`h × w` logits array: each neighbour contributes on its half/quarter slice of
the output, reading the mirrored slice of its own data, scaled by the cached
weight matrix for that direction; the tile's own logits contribute everywhere
through the centre weight matrix. -/
def average_logits_towards_edges (h w : ℕ) (logits : ℕ → ℕ → ℚ)
    (adjacent : Adjacent (ℕ → ℕ → ℚ)) (y x : ℕ) : ℚ :=
  let h2 := h / 2
  let w2 := w / 2
  (if y < h2 ∧ x < w2 then
    f_contrib adjacent.tl (h2 + y) (w2 + x) (_weight_matrices h w 0 0 y x) else 0)
  + (if y < h2 then
    f_contrib adjacent.up (h2 + y) x (_weight_matrices h w 0 1 y x) else 0)
  + (if y < h2 ∧ w2 ≤ x then
    f_contrib adjacent.tr (h2 + y) (x - w2) (_weight_matrices h w 0 2 y x) else 0)
  + (if x < w2 then
    f_contrib adjacent.le y (w2 + x) (_weight_matrices h w 1 0 y x) else 0)
  + logits y x * _weight_matrices h w 1 1 y x
  + (if w2 ≤ x then
    f_contrib adjacent.ri y (x - w2) (_weight_matrices h w 1 2 y x) else 0)
  + (if h2 ≤ y ∧ x < w2 then
    f_contrib adjacent.bl (y - h2) (w2 + x) (_weight_matrices h w 2 0 y x) else 0)
  + (if h2 ≤ y then
    f_contrib adjacent.do_ (y - h2) x (_weight_matrices h w 2 1 y x) else 0)
  + (if h2 ≤ y ∧ w2 ≤ x then
    f_contrib adjacent.br (y - h2) (x - w2) (_weight_matrices h w 2 2 y x) else 0)

/-- Disposition of a classified tile, as computed from the written class
window in `progressively_grow_floodmaps`: a large permanent-water body
(`> 50%` PW pixels or `< 10%` background pixels), a flooded tile
(`tile_flooded`), or anything else. -/
inductive TileClass where
  | permanent
  | flooded
  | background
deriving DecidableEq

/-- The mutable state of the frontier-driven search loop in
`progressively_grow_floodmaps`: the FIFO frontier `tiles`, the boolean
`visited` mask, the sequences of popped (`visit_tiles`) and written
(`fill_tiles`) tile coordinates, and the running disposition counters. -/
structure SearchState where
  tiles : List (ℕ × ℕ)
  visited : ℕ × ℕ → Bool
  visit_tiles : List (ℕ × ℕ)
  fill_tiles : List (ℕ × ℕ)
  n_visited : ℕ
  n_flooded : ℕ
  n_permanent : ℕ
  n_outside : ℕ

/-- Shallow embedding of `sel_new_tiles_big_window`: the coordinates
`itertools.product(range(max(0, x - add), min(xsize, x + add)),
range(max(0, y - add), min(ysize, y + add)))` — note that the upper end of a
Python `range` is exclusive. -/
def sel_new_tiles_big_window (tile_x tile_y xsize ysize add : ℕ) : List (ℕ × ℕ) :=
  let xlo := tile_x - add
  let xhi := min xsize (tile_x + add)
  let ylo := tile_y - add
  let yhi := min ysize (tile_y + add)
  (List.range' xlo (xhi - xlo)).flatMap fun tx =>
    (List.range' ylo (yhi - ylo)).map fun ty => (tx, ty)

/-- The frontier-expansion loop `for tile in new_tiles: if not visited[tile]
and (tile not in tiles): tiles.append(tile)`. -/
def enqueue_new (visited : ℕ × ℕ → Bool) (tiles new_tiles : List (ℕ × ℕ)) : List (ℕ × ℕ) :=
  new_tiles.foldl (fun ts t => if visited t = false ∧ t ∉ ts then ts ++ [t] else ts) tiles

/-- One iteration of the search loop body, popping the frontier head `c` with
remaining frontier `rest`: mark visited, record the visit; skip as `outside`
if the tile geometry is not contained in the viable footprint
(`contains_fp`); invoke the oracle + edge heuristic (`classify`; `none` models
`flood_logits is None` or a heuristic rejection) and skip as `outside` on
`none`; otherwise write the tile (`fill_tiles`) and either count a large
water body, count a flooded tile and expand the frontier by the
`sel_new_tiles_big_window` window with `add=3`, or do nothing further. -/
def grow_step (contains_fp : ℕ × ℕ → Bool) (classify : ℕ × ℕ → Option TileClass)
    (gw gh : ℕ) (c : ℕ × ℕ) (rest : List (ℕ × ℕ)) (s : SearchState) : SearchState :=
  let s1 : SearchState := { s with
    tiles := rest,
    visited := fun t => if t = c then true else s.visited t,
    n_visited := s.n_visited + 1,
    visit_tiles := s.visit_tiles ++ [c] }
  if contains_fp c = false then { s1 with n_outside := s1.n_outside + 1 }
  else
    match classify c with
    | none => { s1 with n_outside := s1.n_outside + 1 }
    | some cls =>
      let s2 : SearchState := { s1 with fill_tiles := s1.fill_tiles ++ [c] }
      match cls with
      | TileClass.permanent => { s2 with n_permanent := s2.n_permanent + 1 }
      | TileClass.flooded => { s2 with
          n_flooded := s2.n_flooded + 1,
          tiles := enqueue_new s2.visited s2.tiles (sel_new_tiles_big_window c.1 c.2 gw gh 3) }
      | TileClass.background => s2

/-- Fuel-indexed iteration of the loop `while len(tiles) > 0 and
len(visit_tiles) < max_tiles`.  Each iteration appends exactly one element to
`visit_tiles`, so `max_tiles - len(visit_tiles)` units of fuel always suffice;
`progressively_grow_floodmaps_eq` below proves the while-loop unfolding
equation, so this is the loop's exact behaviour. -/
def grow_loop (contains_fp : ℕ × ℕ → Bool) (classify : ℕ × ℕ → Option TileClass)
    (gw gh max_tiles : ℕ) : ℕ → SearchState → SearchState
  | 0, s => s
  | fuel + 1, s =>
    match s.tiles with
    | [] => s
    | c :: rest =>
      if s.visit_tiles.length < max_tiles then
        grow_loop contains_fp classify gw gh max_tiles fuel
          (grow_step contains_fp classify gw gh c rest s)
      else s

/-- The search loop of `progressively_grow_floodmaps`, started on an initial
state (frontier from seeding, all-false visited mask, empty visit record). -/
def progressively_grow_floodmaps (contains_fp : ℕ × ℕ → Bool)
    (classify : ℕ × ℕ → Option TileClass) (gw gh max_tiles : ℕ)
    (s : SearchState) : SearchState :=
  grow_loop contains_fp classify gw gh max_tiles (max_tiles - s.visit_tiles.length) s

/-- The search-loop invariant behind claim C3: the frontier has no
duplicates, the visit sequence has no duplicates, every queued coordinate is
unvisited, and every recorded visit is marked visited. -/
def SearchInv (s : SearchState) : Prop :=
  s.tiles.Nodup ∧ s.visit_tiles.Nodup ∧
  (∀ c ∈ s.tiles, s.visited c = false) ∧ (∀ c ∈ s.visit_tiles, s.visited c = true)

/-- Shallow embedding of `create_initial_tiles`: `river_tiles a b` abstracts
`tiles_along_river_within_geom(rivers_df, geom, tile_grid, crs,
min_river_size=a, max_tiles=b)`.  The source first queries rivers above the
size threshold (500, capped at 200 tiles), retries with threshold 0 (capped
at 500), falls back to `sel_new_tiles_big_window` around the lattice centre
with `add=3`, and finally expands every selected tile by the `add=2` window,
appending only coordinates not already selected. -/
def create_initial_tiles (river_tiles : ℕ → ℕ → List (ℕ × ℕ)) (gw gh : ℕ) : List (ℕ × ℕ) :=
  let tiles0 := river_tiles 500 200
  let tiles1 := if tiles0 = [] then river_tiles 0 500 else tiles0
  let tiles2 := if tiles1 = [] then sel_new_tiles_big_window (gw / 2) (gh / 2) gw gh 3 else tiles1
  tiles2.foldl (fun acc seed =>
    (sel_new_tiles_big_window seed.1 seed.2 gw gh 2).foldl
      (fun acc2 t => if t ∈ acc2 then acc2 else acc2 ++ [t]) acc) tiles2

/-- The pixel predicate `t < 1e-5` of `s1_preprocess_edge_heuristic`; a pixel
is an `Option ℚ`, with `none` modelling an IEEE NaN, for which every `<`
comparison is false. -/
def near_zero (v : Option ℚ) : Bool :=
  match v with
  | none => false
  | some q => decide (q < 1 / 100000)

/-- Shallow embedding of `s1_preprocess_edge_heuristic`: accept iff no input
tensor contains a NaN and every input tensor has strictly fewer than
`size * threshold` near-zero pixels (the source default threshold is
`0.05`). -/
def s1_preprocess_edge_heuristic (tensors : List (List (Option ℚ))) (threshold : ℚ) : Bool :=
  let no_nan := tensors.all fun t => t.countP (fun v => v.isNone) == 0
  let not_too_many_zeros := tensors.all fun t =>
    decide (((t.countP near_zero : ℕ) : ℚ) < (t.length : ℚ) * threshold)
  no_nan && not_too_many_zeros

/-- The failure condition of the Grid Builder. -/
inductive GridError where
  | InvalidFootprint
deriving DecidableEq

/-- Modelled from the spec: `util.mk_box_grid` is not under `src/` (only its
caller `mk_grid` is), so a lattice is recorded as a descriptor — anchor
`(x0, y0)`, pixel extent `w × h` and tile edge `s` — rather than as the array
of shapely boxes the real helper builds. -/
structure BoxGrid where
  x0 : ℤ
  y0 : ℤ
  w : ℤ
  h : ℤ
  s : ℕ
deriving DecidableEq

/-- Modelled from the spec: constructor for the `BoxGrid` descriptor standing
in for `util.mk_box_grid(w, h, x0, y0, s, s)`. -/
def mk_box_grid (w h x0 y0 : ℤ) (s : ℕ) : BoxGrid :=
  BoxGrid.mk x0 y0 w h s

/-- The Grid Builder's output: the four half-tile-offset lattices and the
pixel-aligned footprint (the snapped pixel envelope `(xlo, ylo, xhi, yhi)`). -/
structure TileGrids where
  primary : BoxGrid
  offset_x : BoxGrid
  offset_y : BoxGrid
  offset_xy : BoxGrid
  footprint : ℤ × ℤ × ℤ × ℤ
deriving DecidableEq

/-- Modelled from the spec: shallow embedding of `mk_grid` over the validity
polygon's pixel-space bounds `(xlo, ylo, xhi, yhi)` (the source first maps the
polygon through the inverse affine transform; we start from the resulting
bounds).  The bound shrinking `ceil(lo)+1` / `floor(hi)-1` and the four
offset lattices `(+0,+0) (+s//2,+0) (+0,+s//2) (+s//2,+s//2)` with shifted
dimensions one tile smaller follow the source; the `InvalidFootprint`
signalling on a degenerate shrunk box is modelled from the spec (§4.1),
because `util.mk_box_grid`, which would consume the degenerate extent, is not
under `src/`. -/
def mk_grid (xlo ylo xhi yhi : ℚ) (gridsize : ℕ) : Except GridError TileGrids :=
  let xlo2 : ℤ := ⌈xlo⌉ + 1
  let ylo2 : ℤ := ⌈ylo⌉ + 1
  let xhi2 : ℤ := ⌊xhi⌋ - 1
  let yhi2 : ℤ := ⌊yhi⌋ - 1
  let w_px := xhi2 - xlo2
  let h_px := yhi2 - ylo2
  let s := gridsize
  if w_px ≤ 0 ∨ h_px ≤ 0 then Except.error GridError.InvalidFootprint
  else Except.ok (TileGrids.mk
    (mk_box_grid w_px h_px xlo2 ylo2 s)
    (mk_box_grid (w_px - s) h_px (xlo2 + s / 2) ylo2 s)
    (mk_box_grid w_px (h_px - s) xlo2 (ylo2 + s / 2) s)
    (mk_box_grid (w_px - s) (h_px - s) (xlo2 + s / 2) (ylo2 + s / 2) s)
    (xlo2, ylo2, xhi2, yhi2))

/-- Shallow embedding of `postprocess_classes`: the class raster is a pixel
function, `post` abstracts the inner `_postprocess_classes` smoothing (the
majority filter and small-region replacement, which receive the raster and
the `~nan_mask` visited mask), and pixels that were nodata in the input are
restored to nodata after smoothing. -/
def postprocess_classes (post : (ℕ × ℕ → ℕ) → (ℕ × ℕ → Bool) → (ℕ × ℕ → ℕ))
    (floodmaps : ℕ × ℕ → ℕ) (nodata : ℕ) : ℕ × ℕ → ℕ :=
  let nan_mask := fun p => floodmaps p == nodata
  let smoothed := post floodmaps (fun p => ! nan_mask p)
  fun p => if nan_mask p then nodata else smoothed p

/-- A pixel row/column strictly inside the near half of the tile lies at or
below the middle interpolation knot. -/
lemma cast_le_half_knot (n t : ℕ) (h : t < n / 2) : (t : ℚ) ≤ half_knot n := by
  unfold half_knot
  have h1 : ((t + 1 : ℕ) : ℚ) ≤ ((n / 2 : ℕ) : ℚ) := by exact_mod_cast Nat.succ_le_of_lt h
  push_cast at h1
  linarith

/-- A pixel row/column in the far half of the tile lies strictly beyond the
middle interpolation knot. -/
lemma not_cast_le_half_knot (n t : ℕ) (h : n / 2 ≤ t) : ¬ ((t : ℚ) ≤ half_knot n) := by
  unfold half_knot
  have h1 : ((n / 2 : ℕ) : ℚ) ≤ (t : ℚ) := by exact_mod_cast h
  intro hc
  linarith

/-- Claim C1: with all 8 half-tile-offset neighbour logit arrays present, the
blended logits are a convex combination of the own-tile and mirrored neighbour
logits — at every pixel the own-tile weight plus the weights of all neighbour
contributions applied there sum to exactly 1, witnessed by blending arrays
that are identically 1 and obtaining exactly 1 at every pixel. -/
theorem blend_weights_are_convex_combination (h w y x : ℕ) (hy : y < h) (hx : x < w) :
    average_logits_towards_edges h w (fun _ _ => 1)
      ⟨some fun _ _ => 1, some fun _ _ => 1, some fun _ _ => 1, some fun _ _ => 1,
       some fun _ _ => 1, some fun _ _ => 1, some fun _ _ => 1, some fun _ _ => 1⟩ y x = 1 := by
  by_cases hy2 : y < h / 2 <;> by_cases hx2 : x < w / 2
  · have hy2n : ¬ (h / 2 ≤ y) := by omega
    have hx2n : ¬ (w / 2 ≤ x) := by omega
    have hcy := cast_le_half_knot h y hy2
    have hcx := cast_le_half_knot w x hx2
    simp only [average_logits_towards_edges, f_contrib, hy2, hx2, hy2n, hx2n, and_self,
      and_false, false_and, if_true, if_false, one_mul, add_zero, zero_add, ite_true, ite_false]
    norm_num [_weight_matrices, interp2, lin1, hcy, hcx]
    ring
  · have hy2n : ¬ (h / 2 ≤ y) := by omega
    have hx2n : w / 2 ≤ x := by omega
    have hcy := cast_le_half_knot h y hy2
    have hcx := not_cast_le_half_knot w x hx2n
    simp only [average_logits_towards_edges, f_contrib, hy2, hx2, hy2n, hx2n, and_self,
      and_false, false_and, and_true, true_and, if_true, if_false, one_mul, add_zero, zero_add,
      ite_true, ite_false]
    norm_num [_weight_matrices, interp2, lin1, hcy, hcx]
    ring
  · have hy2n : h / 2 ≤ y := by omega
    have hx2n : ¬ (w / 2 ≤ x) := by omega
    have hcy := not_cast_le_half_knot h y hy2n
    have hcx := cast_le_half_knot w x hx2
    simp only [average_logits_towards_edges, f_contrib, hy2, hx2, hy2n, hx2n, and_self,
      and_false, false_and, and_true, true_and, if_true, if_false, one_mul, add_zero, zero_add,
      ite_true, ite_false]
    norm_num [_weight_matrices, interp2, lin1, hcy, hcx]
    ring
  · have hy2n : h / 2 ≤ y := by omega
    have hx2n : w / 2 ≤ x := by omega
    have hcy := not_cast_le_half_knot h y hy2n
    have hcx := not_cast_le_half_knot w x hx2n
    simp only [average_logits_towards_edges, f_contrib, hy2, hx2, hy2n, hx2n, and_self,
      and_false, false_and, and_true, true_and, if_true, if_false, one_mul, add_zero, zero_add,
      ite_true, ite_false]
    norm_num [_weight_matrices, interp2, lin1, hcy, hcx]
    ring

/-- Witness for C1 at the concrete pixel (1, 2) of a 4×4 tile. -/
theorem blend_weights_are_convex_combination_witness :
    (1 : ℕ) < 4 ∧ (2 : ℕ) < 4 ∧
    average_logits_towards_edges 4 4 (fun _ _ => 1)
      ⟨some fun _ _ => 1, some fun _ _ => 1, some fun _ _ => 1, some fun _ _ => 1,
       some fun _ _ => 1, some fun _ _ => 1, some fun _ _ => 1, some fun _ _ => 1⟩ 1 2 = 1 :=
  ⟨by norm_num, by norm_num,
    blend_weights_are_convex_combination 4 4 1 2 (by norm_num) (by norm_num)⟩

/-- Counterexample to claim C4 as stated: with all 8 neighbours absent the
blended output does not equal the own-tile logits at every pixel — on a 2×2
tile of constant logits 1, the corner pixel comes out 0, not 1. -/
theorem blend_all_absent_not_identity_cex :
    average_logits_towards_edges 2 2 (fun _ _ => 1)
      ⟨none, none, none, none, none, none, none, none⟩ 0 0 ≠ (fun _ _ => (1 : ℚ)) 0 0 := by
  norm_num [average_logits_towards_edges, f_contrib, _weight_matrices, interp2, lin1, half_knot]

/-- Claim C4, amended: when all 8 neighbour entries are `None`, the blended
output equals the own-tile logits multiplied pixelwise by the own-tile centre
weight matrix `weights[1, 1]` (which is 1 only along the tile centre lines and
attenuates towards the edges); absent neighbours contribute zero and their
weight is not redistributed. -/
theorem blend_all_absent_scales_by_centre_weight (h w : ℕ) (logits : ℕ → ℕ → ℚ) (y x : ℕ) :
    average_logits_towards_edges h w logits
      ⟨none, none, none, none, none, none, none, none⟩ y x
      = logits y x * _weight_matrices h w 1 1 y x := by
  simp [average_logits_towards_edges, f_contrib]

/-- The loop body always appends exactly the popped coordinate to the visit
sequence, whatever the tile's disposition. -/
lemma grow_step_visit_tiles (cf : ℕ × ℕ → Bool) (cl : ℕ × ℕ → Option TileClass)
    (gw gh : ℕ) (c : ℕ × ℕ) (rest : List (ℕ × ℕ)) (s : SearchState) :
    (grow_step cf cl gw gh c rest s).visit_tiles = s.visit_tiles ++ [c] := by
  unfold grow_step
  split
  · rfl
  · split
    · rfl
    · split <;> rfl

/-- The loop body always marks exactly the popped coordinate visited. -/
lemma grow_step_visited (cf : ℕ × ℕ → Bool) (cl : ℕ × ℕ → Option TileClass)
    (gw gh : ℕ) (c : ℕ × ℕ) (rest : List (ℕ × ℕ)) (s : SearchState) :
    (grow_step cf cl gw gh c rest s).visited = fun t => if t = c then true else s.visited t := by
  unfold grow_step
  split
  · rfl
  · split
    · rfl
    · split <;> rfl

/-- The frontier after one loop body iteration is either the popped frontier
`rest` unchanged, or `rest` extended by the flooded-expansion window. -/
lemma grow_step_tiles (cf : ℕ × ℕ → Bool) (cl : ℕ × ℕ → Option TileClass)
    (gw gh : ℕ) (c : ℕ × ℕ) (rest : List (ℕ × ℕ)) (s : SearchState) :
    (grow_step cf cl gw gh c rest s).tiles = rest ∨
    (grow_step cf cl gw gh c rest s).tiles =
      enqueue_new (fun t => if t = c then true else s.visited t) rest
        (sel_new_tiles_big_window c.1 c.2 gw gh 3) := by
  unfold grow_step
  split
  · left; rfl
  · split
    · left; rfl
    · split
      · left; rfl
      · right; rfl
      · left; rfl

/-- The while-loop unfolding equation for `progressively_grow_floodmaps`:
it stops when the frontier is empty or the visit count has reached
`max_tiles`, and otherwise runs the body once and continues. -/
lemma progressively_grow_floodmaps_eq (cf : ℕ × ℕ → Bool)
    (cl : ℕ × ℕ → Option TileClass) (gw gh m : ℕ) (s : SearchState) :
    progressively_grow_floodmaps cf cl gw gh m s =
      match s.tiles with
      | [] => s
      | c :: rest =>
        if s.visit_tiles.length < m then
          progressively_grow_floodmaps cf cl gw gh m (grow_step cf cl gw gh c rest s)
        else s := by
  unfold progressively_grow_floodmaps
  cases hm : m - s.visit_tiles.length with
  | zero =>
    have hge : ¬ s.visit_tiles.length < m := by omega
    cases htiles : s.tiles with
    | nil => simp [grow_loop]
    | cons c rest => simp [grow_loop, htiles, hge]
  | succ f =>
    have hlt : s.visit_tiles.length < m := by omega
    cases htiles : s.tiles with
    | nil => simp [grow_loop, htiles]
    | cons c rest =>
      simp only [grow_loop, htiles, if_pos hlt]
      have hv : (grow_step cf cl gw gh c rest s).visit_tiles.length
          = s.visit_tiles.length + 1 := by
        rw [grow_step_visit_tiles]; simp
      rw [hv]
      have : m - (s.visit_tiles.length + 1) = f := by omega
      rw [this]

/-- Generalised cap invariant for the fuel-indexed loop: if the fuel equals
the remaining visit budget, the loop ends with an empty frontier or with the
visit count exactly at the cap, and never exceeds the cap. -/
lemma grow_loop_cap (cf : ℕ × ℕ → Bool) (cl : ℕ × ℕ → Option TileClass)
    (gw gh m : ℕ) :
    ∀ fuel s, s.visit_tiles.length + fuel = m →
      ((grow_loop cf cl gw gh m fuel s).tiles = [] ∨
        (grow_loop cf cl gw gh m fuel s).visit_tiles.length = m) ∧
      (grow_loop cf cl gw gh m fuel s).visit_tiles.length ≤ m := by
  intro fuel
  induction fuel with
  | zero =>
    intro s hs
    simp only [grow_loop]
    exact ⟨Or.inr (by omega), by omega⟩
  | succ f ih =>
    intro s hs
    cases htiles : s.tiles with
    | nil =>
      have hres : grow_loop cf cl gw gh m (f + 1) s = s := by
        simp [grow_loop, htiles]
      rw [hres]
      exact ⟨Or.inl htiles, by omega⟩
    | cons c rest =>
      have hlt : s.visit_tiles.length < m := by omega
      simp only [grow_loop, htiles, if_pos hlt]
      apply ih
      rw [grow_step_visit_tiles]
      simp
      omega

/-- Claim C2: started from an empty visit record, the search loop stops
exactly when the frontier is empty or the number of visited tiles has reached
the cap `max_tiles`, and it never visits more than `max_tiles` tiles (each
pop appends exactly one element to the visit sequence). -/
theorem search_stops_at_empty_frontier_or_cap (cf : ℕ × ℕ → Bool)
    (cl : ℕ × ℕ → Option TileClass) (gw gh max_tiles : ℕ) (s : SearchState)
    (h0 : s.visit_tiles = []) :
    ((progressively_grow_floodmaps cf cl gw gh max_tiles s).tiles = [] ∨
      (progressively_grow_floodmaps cf cl gw gh max_tiles s).visit_tiles.length = max_tiles) ∧
    (progressively_grow_floodmaps cf cl gw gh max_tiles s).visit_tiles.length ≤ max_tiles := by
  unfold progressively_grow_floodmaps
  apply grow_loop_cap
  rw [h0]
  simp

/-- Witness for C2: a concrete 3×3 search in which every tile floods, capped
at 4 visits. -/
theorem search_stops_at_empty_frontier_or_cap_witness :
    (SearchState.mk [(1, 1)] (fun _ => false) [] [] 0 0 0 0).visit_tiles = [] ∧
    (((progressively_grow_floodmaps (fun _ => true) (fun _ => some TileClass.flooded) 3 3 4
        (SearchState.mk [(1, 1)] (fun _ => false) [] [] 0 0 0 0)).tiles = [] ∨
      (progressively_grow_floodmaps (fun _ => true) (fun _ => some TileClass.flooded) 3 3 4
        (SearchState.mk [(1, 1)] (fun _ => false) [] [] 0 0 0 0)).visit_tiles.length = 4) ∧
    (progressively_grow_floodmaps (fun _ => true) (fun _ => some TileClass.flooded) 3 3 4
        (SearchState.mk [(1, 1)] (fun _ => false) [] [] 0 0 0 0)).visit_tiles.length ≤ 4) :=
  ⟨rfl, search_stops_at_empty_frontier_or_cap (fun _ => true)
    (fun _ => some TileClass.flooded) 3 3 4
    (SearchState.mk [(1, 1)] (fun _ => false) [] [] 0 0 0 0) rfl⟩

/-- The expansion loop preserves frontier Nodup-ness and the all-unvisited
property: a tile is appended only if it is unvisited and not already
queued. -/
lemma enqueue_new_nodup (v : ℕ × ℕ → Bool) :
    ∀ (new_tiles ts : List (ℕ × ℕ)), ts.Nodup → (∀ t ∈ ts, v t = false) →
      (enqueue_new v ts new_tiles).Nodup ∧ ∀ t ∈ enqueue_new v ts new_tiles, v t = false := by
  intro new_tiles
  induction new_tiles with
  | nil => intro ts h1 h2; exact ⟨h1, h2⟩
  | cons n ns ih =>
    intro ts h1 h2
    have hstep : enqueue_new v ts (n :: ns) =
        enqueue_new v (if v n = false ∧ n ∉ ts then ts ++ [n] else ts) ns := rfl
    rw [hstep]
    by_cases hc : v n = false ∧ n ∉ ts
    · rw [if_pos hc]
      apply ih
      · simp [List.nodup_append, h1, hc.2]
      · intro t ht
        rcases List.mem_append.mp ht with h | h
        · exact h2 t h
        · simp at h; subst h; exact hc.1
    · rw [if_neg hc]
      exact ih ts h1 h2

/-- One loop body iteration preserves the search invariant. -/
lemma grow_step_inv (cf : ℕ × ℕ → Bool) (cl : ℕ × ℕ → Option TileClass)
    (gw gh : ℕ) (c : ℕ × ℕ) (rest : List (ℕ × ℕ)) (s : SearchState)
    (htiles : s.tiles = c :: rest) (hinv : SearchInv s) :
    SearchInv (grow_step cf cl gw gh c rest s) := by
  obtain ⟨h1, h2, h3, h4⟩ := hinv
  rw [htiles] at h1 h3
  have hcrest : c ∉ rest := (List.nodup_cons.mp h1).1
  have hrest : rest.Nodup := (List.nodup_cons.mp h1).2
  have hcu : s.visited c = false := h3 c (List.mem_cons_self c rest)
  have hrestu : ∀ t ∈ rest, (fun t => if t = c then true else s.visited t) t = false := by
    intro t ht
    have : t ≠ c := fun he => hcrest (he ▸ ht)
    simp only [if_neg this]
    exact h3 t (List.mem_cons_of_mem c ht)
  have hcnew : c ∉ s.visit_tiles := by
    intro hmem
    rw [h4 c hmem] at hcu
    exact Bool.true_eq_false.mp hcu
  refine ⟨?_, ?_, ?_, ?_⟩
  · rcases grow_step_tiles cf cl gw gh c rest s with h | h
    · rw [h]; exact hrest
    · rw [h]
      exact (enqueue_new_nodup _ _ rest hrest hrestu).1
  · rw [grow_step_visit_tiles]
    simp [List.nodup_append, h2, hcnew]
  · intro t ht
    rw [grow_step_visited]
    rcases grow_step_tiles cf cl gw gh c rest s with h | h
    · rw [h] at ht
      exact hrestu t ht
    · rw [h] at ht
      exact (enqueue_new_nodup _ _ rest hrest hrestu).2 t ht
  · intro t ht
    rw [grow_step_visit_tiles] at ht
    rw [grow_step_visited]
    rcases List.mem_append.mp ht with h | h
    · by_cases he : t = c
      · simp [he]
      · simp only [if_neg he]
        exact h4 t h
    · simp at h; simp [h]

/-- The fuel-indexed loop preserves the search invariant. -/
lemma grow_loop_inv (cf : ℕ × ℕ → Bool) (cl : ℕ × ℕ → Option TileClass)
    (gw gh m : ℕ) : ∀ fuel s, SearchInv s → SearchInv (grow_loop cf cl gw gh m fuel s) := by
  intro fuel
  induction fuel with
  | zero => intro s h; simpa [grow_loop] using h
  | succ f ih =>
    intro s h
    cases htiles : s.tiles with
    | nil => simpa [grow_loop, htiles] using h
    | cons c rest =>
      by_cases hlt : s.visit_tiles.length < m
      · simp only [grow_loop, htiles, if_pos hlt]
        exact ih _ (grow_step_inv cf cl gw gh c rest s htiles h)
      · simpa [grow_loop, htiles, if_neg hlt] using h

/-- Claim C3: in a run of the search loop started with a duplicate-free
frontier, an all-false visited mask and an empty visit record, no tile
coordinate is ever visited twice — the visit sequence is duplicate-free
(each pop marks its coordinate visited; expansion enqueues a coordinate only
if it is unvisited and not already queued). -/
theorem search_never_visits_twice (cf : ℕ × ℕ → Bool) (cl : ℕ × ℕ → Option TileClass)
    (gw gh max_tiles : ℕ) (s : SearchState) (h1 : s.tiles.Nodup)
    (h2 : s.visit_tiles = []) (h3 : s.visited = fun _ => false) :
    (progressively_grow_floodmaps cf cl gw gh max_tiles s).visit_tiles.Nodup := by
  have hinv : SearchInv s := by
    refine ⟨h1, ?_, ?_, ?_⟩
    · rw [h2]; exact List.nodup_nil
    · intro c _; rw [h3]
    · intro c hc; rw [h2] at hc; cases hc
  exact (grow_loop_inv cf cl gw gh max_tiles _ s hinv).2.1

/-- Witness for C3: a concrete 3×3 all-flooding search from one seed tile. -/
theorem search_never_visits_twice_witness :
    (SearchState.mk [(1, 1)] (fun _ => false) [] [] 0 0 0 0).tiles.Nodup ∧
    (SearchState.mk [(1, 1)] (fun _ => false) [] [] 0 0 0 0).visit_tiles = [] ∧
    (progressively_grow_floodmaps (fun _ => true) (fun _ => some TileClass.flooded) 3 3 20
      (SearchState.mk [(1, 1)] (fun _ => false) [] [] 0 0 0 0)).visit_tiles.Nodup :=
  ⟨by decide, rfl,
    search_never_visits_twice (fun _ => true) (fun _ => some TileClass.flooded) 3 3 20
      (SearchState.mk [(1, 1)] (fun _ => false) [] [] 0 0 0 0) (by decide) rfl rfl⟩

/-- Membership in the expansion window: exactly the in-bounds coordinates
with offsets in `[-add, add)` of the popped tile (Python `range` excludes its
upper end, and the lower end is clamped at 0, the upper at the lattice
size). -/
lemma mem_sel_new_tiles_big_window (tx ty xs ys add : ℕ) (t : ℕ × ℕ) :
    t ∈ sel_new_tiles_big_window tx ty xs ys add ↔
      tx - add ≤ t.1 ∧ t.1 < min xs (tx + add) ∧
      ty - add ≤ t.2 ∧ t.2 < min ys (ty + add) := by
  obtain ⟨a, b⟩ := t
  simp only [sel_new_tiles_big_window, List.mem_flatMap, List.mem_map, List.mem_range'_1]
  constructor
  · rintro ⟨x1, ⟨hx1, hx2⟩, y1, ⟨hy1, hy2⟩, heq⟩
    obtain ⟨rfl, rfl⟩ := Prod.mk.injEq x1 y1 a b ▸ heq
    exact ⟨by omega, by omega, by omega, by omega⟩
  · rintro ⟨h1, h2, h3, h4⟩
    exact ⟨a, ⟨h1, by omega⟩, b, ⟨h3, by omega⟩, rfl⟩

/-- The expansion window list contains no duplicate coordinates. -/
lemma sel_new_tiles_big_window_nodup (tx ty xs ys add : ℕ) :
    (sel_new_tiles_big_window tx ty xs ys add).Nodup := by
  unfold sel_new_tiles_big_window
  rw [List.nodup_flatMap]
  constructor
  · intro a _
    refine (List.nodup_range' _ _).map ?_
    intro y1 y2 he
    exact (Prod.ext_iff.mp he).2
  · refine List.Pairwise.imp ?_ (List.nodup_range' _ _)
    intro a b hab t hta htb
    simp only [List.mem_map] at hta htb
    obtain ⟨y1, _, rfl⟩ := hta
    obtain ⟨y2, _, he⟩ := htb
    injection he with h1 h2
    exact hab h1.symm

/-- Membership after the expansion loop: a coordinate is in the resulting
frontier iff it was already queued, or it is an unvisited, not-already-queued
member of the (duplicate-free) window list. -/
lemma mem_enqueue_new (v : ℕ × ℕ → Bool) :
    ∀ (new_tiles : List (ℕ × ℕ)), new_tiles.Nodup → ∀ (ts : List (ℕ × ℕ)) (t : ℕ × ℕ),
      (t ∈ enqueue_new v ts new_tiles ↔
        t ∈ ts ∨ (t ∈ new_tiles ∧ v t = false ∧ t ∉ ts)) := by
  intro new_tiles
  induction new_tiles with
  | nil => intro _ ts t; simp [enqueue_new]
  | cons n ns ih =>
    intro hnd ts t
    have hstep : enqueue_new v ts (n :: ns) =
        enqueue_new v (if v n = false ∧ n ∉ ts then ts ++ [n] else ts) ns := rfl
    have hnns : n ∉ ns := (List.nodup_cons.mp hnd).1
    have hnd2 : ns.Nodup := (List.nodup_cons.mp hnd).2
    rw [hstep, ih hnd2]
    by_cases he : t = n
    · subst he
      by_cases hc : v t = false ∧ t ∉ ts
      · rw [if_pos hc]
        simp [List.mem_append, hc.1, hc.2, hnns]
      · rw [if_neg hc]
        simp only [List.mem_cons, true_or, true_and, hnns, false_and, and_false, or_false]
        tauto
    · by_cases hc : v n = false ∧ n ∉ ts
      · rw [if_pos hc]
        simp [List.mem_append, he, hnns]
      · rw [if_neg hc]
        simp [he]

/-- Claim C5, amended: when a popped tile is inside the footprint and
classified flooded (and not as a large water body), the expansion enqueues
exactly the not-yet-visited, not-already-queued tiles of the window
`[x-3, x+3) × [y-3, y+3)` around it clipped to `[0, gw) × [0, gh)` — the
Python `range(max(0, v-3), min(size, v+3))` window, whose upper offset is
exclusive, so a 6×6 window when unclipped, not 7×7 — and in particular no
enqueued coordinate lies outside the lattice bounds. -/
theorem flooded_tile_expansion_window (cf : ℕ × ℕ → Bool) (cl : ℕ × ℕ → Option TileClass)
    (gw gh : ℕ) (c : ℕ × ℕ) (rest : List (ℕ × ℕ)) (s : SearchState) (t : ℕ × ℕ)
    (hc : cf c = true) (hf : cl c = some TileClass.flooded) :
    (t ∈ (grow_step cf cl gw gh c rest s).tiles ↔
      t ∈ rest ∨ (s.visited t = false ∧ t ≠ c ∧ t ∉ rest ∧
        c.1 - 3 ≤ t.1 ∧ t.1 < min gw (c.1 + 3) ∧
        c.2 - 3 ≤ t.2 ∧ t.2 < min gh (c.2 + 3))) ∧
    (t ∈ (grow_step cf cl gw gh c rest s).tiles → t ∈ rest ∨ (t.1 < gw ∧ t.2 < gh)) := by
  have htiles : (grow_step cf cl gw gh c rest s).tiles =
      enqueue_new (fun u => if u = c then true else s.visited u) rest
        (sel_new_tiles_big_window c.1 c.2 gw gh 3) := by
    simp [grow_step, hc, hf]
  have hmem : t ∈ (grow_step cf cl gw gh c rest s).tiles ↔
      t ∈ rest ∨ (t ∈ sel_new_tiles_big_window c.1 c.2 gw gh 3 ∧
        (if t = c then true else s.visited t) = false ∧ t ∉ rest) := by
    rw [htiles]
    exact mem_enqueue_new _ _ (sel_new_tiles_big_window_nodup c.1 c.2 gw gh 3) rest t
  constructor
  · rw [hmem, mem_sel_new_tiles_big_window]
    constructor
    · rintro (h | ⟨hw, hv, hnr⟩)
      · exact Or.inl h
      · by_cases he : t = c
        · rw [if_pos he] at hv; cases hv
        · rw [if_neg he] at hv
          exact Or.inr ⟨hv, he, hnr, hw.1, hw.2.1, hw.2.2.1, hw.2.2.2⟩
    · rintro (h | ⟨hv, he, hnr, h1, h2, h3, h4⟩)
      · exact Or.inl h
      · refine Or.inr ⟨⟨h1, h2, h3, h4⟩, ?_, hnr⟩
        rw [if_neg he]
        exact hv
  · rw [hmem, mem_sel_new_tiles_big_window]
    rintro (h | ⟨hw, _, _⟩)
    · exact Or.inl h
    · exact Or.inr ⟨by omega, by omega⟩

/-- Witness for C5 (amended) at concrete inputs: popped tile (5, 5) on a
12×12 lattice with an empty remaining frontier; (4, 7) is enqueued. -/
theorem flooded_tile_expansion_window_witness :
    (fun _ => true : ℕ × ℕ → Bool) (5, 5) = true ∧
    (fun _ => some TileClass.flooded : ℕ × ℕ → Option TileClass) (5, 5)
      = some TileClass.flooded ∧
    (((4, 7) ∈ (grow_step (fun _ => true) (fun _ => some TileClass.flooded) 12 12 (5, 5) []
        (SearchState.mk [(5, 5)] (fun _ => false) [] [] 0 0 0 0)).tiles ↔
      (4, 7) ∈ ([] : List (ℕ × ℕ)) ∨
        ((SearchState.mk [(5, 5)] (fun _ => false) [] [] 0 0 0 0).visited (4, 7) = false ∧
          ((4, 7) : ℕ × ℕ) ≠ (5, 5) ∧ (4, 7) ∉ ([] : List (ℕ × ℕ)) ∧
          (5 : ℕ) - 3 ≤ 4 ∧ (4 : ℕ) < min 12 (5 + 3) ∧
          (5 : ℕ) - 3 ≤ 7 ∧ (7 : ℕ) < min 12 (5 + 3))) ∧
    ((4, 7) ∈ (grow_step (fun _ => true) (fun _ => some TileClass.flooded) 12 12 (5, 5) []
        (SearchState.mk [(5, 5)] (fun _ => false) [] [] 0 0 0 0)).tiles →
      (4, 7) ∈ ([] : List (ℕ × ℕ)) ∨ ((4 : ℕ) < 12 ∧ (7 : ℕ) < 12))) :=
  ⟨rfl, rfl,
    flooded_tile_expansion_window (fun _ => true) (fun _ => some TileClass.flooded) 12 12
      (5, 5) [] (SearchState.mk [(5, 5)] (fun _ => false) [] [] 0 0 0 0) (4, 7) rfl rfl⟩

set_option maxRecDepth 4000 in
/-- Counterexample to claim C5 as stated: the claimed 7×7 window (all offsets
within ±3) is not what the code enqueues — after popping flooded tile (5, 5)
on a 12×12 lattice with empty frontier, the in-bounds, unvisited, unqueued
coordinate (8, 5) at offset (+3, 0) is NOT enqueued (the Python `range` upper
bound `tile_x + 3` is exclusive), while (2, 5) at offset (-3, 0) is. -/
theorem flooded_tile_expansion_window_not_7x7_cex :
    (8, 5) ∉ (grow_step (fun _ => true) (fun _ => some TileClass.flooded) 12 12 (5, 5) []
      (SearchState.mk [(5, 5)] (fun _ => false) [] [] 0 0 0 0)).tiles ∧
    (2, 5) ∈ (grow_step (fun _ => true) (fun _ => some TileClass.flooded) 12 12 (5, 5) []
      (SearchState.mk [(5, 5)] (fun _ => false) [] [] 0 0 0 0)).tiles ∧
    (8 : ℕ) < 12 ∧ (5 : ℕ) < 12 := by
  refine ⟨?_, ?_, by norm_num, by norm_num⟩ <;> decide

/-- Claim C6: a popped tile whose geometry is not contained in the viable
footprint is a pure per-tile skip — it is counted `outside`, nothing is
written (`fill_tiles` unchanged), no other counter moves, no expansion
happens (the frontier is exactly the remaining `rest`), the visit is still
recorded, and the oracle is never invoked (the step result is independent of
the classification function). -/
theorem outside_tile_is_skipped (cf : ℕ × ℕ → Bool) (cl cl2 : ℕ × ℕ → Option TileClass)
    (gw gh : ℕ) (c : ℕ × ℕ) (rest : List (ℕ × ℕ)) (s : SearchState)
    (hc : cf c = false) :
    (grow_step cf cl gw gh c rest s).tiles = rest ∧
    (grow_step cf cl gw gh c rest s).fill_tiles = s.fill_tiles ∧
    (grow_step cf cl gw gh c rest s).n_outside = s.n_outside + 1 ∧
    (grow_step cf cl gw gh c rest s).n_flooded = s.n_flooded ∧
    (grow_step cf cl gw gh c rest s).n_permanent = s.n_permanent ∧
    (grow_step cf cl gw gh c rest s).n_visited = s.n_visited + 1 ∧
    (grow_step cf cl gw gh c rest s).visit_tiles = s.visit_tiles ++ [c] ∧
    grow_step cf cl gw gh c rest s = grow_step cf cl2 gw gh c rest s := by
  simp [grow_step, hc]

/-- Witness for C6 at concrete inputs: popped tile (0, 0) fails the
containment test; two different oracles give identical skip results. -/
theorem outside_tile_is_skipped_witness :
    (fun _ => false : ℕ × ℕ → Bool) (0, 0) = false ∧
    ((grow_step (fun _ => false) (fun _ => some TileClass.flooded) 2 2 (0, 0) [(1, 1)]
        (SearchState.mk [(0, 0), (1, 1)] (fun _ => false) [] [] 0 0 0 0)).tiles = [(1, 1)] ∧
      (grow_step (fun _ => false) (fun _ => some TileClass.flooded) 2 2 (0, 0) [(1, 1)]
        (SearchState.mk [(0, 0), (1, 1)] (fun _ => false) [] [] 0 0 0 0)).fill_tiles = [] ∧
      (grow_step (fun _ => false) (fun _ => some TileClass.flooded) 2 2 (0, 0) [(1, 1)]
        (SearchState.mk [(0, 0), (1, 1)] (fun _ => false) [] [] 0 0 0 0)).n_outside = 0 + 1 ∧
      (grow_step (fun _ => false) (fun _ => some TileClass.flooded) 2 2 (0, 0) [(1, 1)]
        (SearchState.mk [(0, 0), (1, 1)] (fun _ => false) [] [] 0 0 0 0)).n_flooded = 0 ∧
      (grow_step (fun _ => false) (fun _ => some TileClass.flooded) 2 2 (0, 0) [(1, 1)]
        (SearchState.mk [(0, 0), (1, 1)] (fun _ => false) [] [] 0 0 0 0)).n_permanent = 0 ∧
      (grow_step (fun _ => false) (fun _ => some TileClass.flooded) 2 2 (0, 0) [(1, 1)]
        (SearchState.mk [(0, 0), (1, 1)] (fun _ => false) [] [] 0 0 0 0)).n_visited = 0 + 1 ∧
      (grow_step (fun _ => false) (fun _ => some TileClass.flooded) 2 2 (0, 0) [(1, 1)]
        (SearchState.mk [(0, 0), (1, 1)] (fun _ => false) [] [] 0 0 0 0)).visit_tiles
        = [] ++ [(0, 0)] ∧
      grow_step (fun _ => false) (fun _ => some TileClass.flooded) 2 2 (0, 0) [(1, 1)]
        (SearchState.mk [(0, 0), (1, 1)] (fun _ => false) [] [] 0 0 0 0)
        = grow_step (fun _ => false) (fun _ => none) 2 2 (0, 0) [(1, 1)]
        (SearchState.mk [(0, 0), (1, 1)] (fun _ => false) [] [] 0 0 0 0)) :=
  ⟨rfl, outside_tile_is_skipped (fun _ => false) (fun _ => some TileClass.flooded)
    (fun _ => none) 2 2 (0, 0) [(1, 1)]
    (SearchState.mk [(0, 0), (1, 1)] (fun _ => false) [] [] 0 0 0 0) rfl⟩


/-- Membership after the inner dedup-append loop of `create_initial_tiles`
(`if tile not in tiles: tiles.append(tile)`): the result is the union of the
accumulator and the window list. -/
lemma mem_dedup_append_fold (ws : List (ℕ × ℕ)) :
    ∀ (acc : List (ℕ × ℕ)) (t : ℕ × ℕ),
      t ∈ ws.foldl (fun acc2 t2 => if t2 ∈ acc2 then acc2 else acc2 ++ [t2]) acc ↔
        t ∈ acc ∨ t ∈ ws := by
  induction ws with
  | nil => intro acc t; simp
  | cons w ws ih =>
    intro acc t
    have hstep : (w :: ws).foldl (fun acc2 t2 => if t2 ∈ acc2 then acc2 else acc2 ++ [t2]) acc
        = ws.foldl (fun acc2 t2 => if t2 ∈ acc2 then acc2 else acc2 ++ [t2])
            (if w ∈ acc then acc else acc ++ [w]) := rfl
    rw [hstep, ih]
    by_cases hw : w ∈ acc
    · rw [if_pos hw]
      simp only [List.mem_cons]
      constructor
      · rintro (h | h)
        · exact Or.inl h
        · exact Or.inr (Or.inr h)
      · rintro (h | h | h)
        · exact Or.inl h
        · exact Or.inl (h ▸ hw)
        · exact Or.inr h
    · rw [if_neg hw]
      simp only [List.mem_append, List.mem_singleton, List.mem_cons]
      tauto

/-- The inner dedup-append loop preserves duplicate-freeness. -/
lemma nodup_dedup_append_fold (ws : List (ℕ × ℕ)) :
    ∀ (acc : List (ℕ × ℕ)), acc.Nodup →
      (ws.foldl (fun acc2 t2 => if t2 ∈ acc2 then acc2 else acc2 ++ [t2]) acc).Nodup := by
  induction ws with
  | nil => intro acc h; simpa using h
  | cons w ws ih =>
    intro acc h
    have hstep : (w :: ws).foldl (fun acc2 t2 => if t2 ∈ acc2 then acc2 else acc2 ++ [t2]) acc
        = ws.foldl (fun acc2 t2 => if t2 ∈ acc2 then acc2 else acc2 ++ [t2])
            (if w ∈ acc then acc else acc ++ [w]) := rfl
    rw [hstep]
    by_cases hw : w ∈ acc
    · rw [if_pos hw]; exact ih acc h
    · rw [if_neg hw]
      apply ih
      simp [List.nodup_append, h, hw]

/-- Membership after the seed-expansion loop of `create_initial_tiles`: the
result is the accumulator together with every coordinate of some seed's
`add=2` window. -/
lemma mem_expand_seeds_fold (gw gh : ℕ) (seeds : List (ℕ × ℕ)) :
    ∀ (acc : List (ℕ × ℕ)) (t : ℕ × ℕ),
      t ∈ seeds.foldl (fun acc seed =>
          (sel_new_tiles_big_window seed.1 seed.2 gw gh 2).foldl
            (fun acc2 t2 => if t2 ∈ acc2 then acc2 else acc2 ++ [t2]) acc) acc ↔
        t ∈ acc ∨ ∃ s ∈ seeds, t ∈ sel_new_tiles_big_window s.1 s.2 gw gh 2 := by
  induction seeds with
  | nil => intro acc t; simp
  | cons sd sds ih =>
    intro acc t
    have hstep : (sd :: sds).foldl (fun acc seed =>
        (sel_new_tiles_big_window seed.1 seed.2 gw gh 2).foldl
          (fun acc2 t2 => if t2 ∈ acc2 then acc2 else acc2 ++ [t2]) acc) acc
      = sds.foldl (fun acc seed =>
          (sel_new_tiles_big_window seed.1 seed.2 gw gh 2).foldl
            (fun acc2 t2 => if t2 ∈ acc2 then acc2 else acc2 ++ [t2]) acc)
          ((sel_new_tiles_big_window sd.1 sd.2 gw gh 2).foldl
            (fun acc2 t2 => if t2 ∈ acc2 then acc2 else acc2 ++ [t2]) acc) := rfl
    rw [hstep, ih, mem_dedup_append_fold]
    simp only [List.mem_cons]
    constructor
    · rintro ((h | h) | ⟨s, hs, hw⟩)
      · exact Or.inl h
      · exact Or.inr ⟨sd, Or.inl rfl, h⟩
      · exact Or.inr ⟨s, Or.inr hs, hw⟩
    · rintro (h | ⟨s, hs | hs, hw⟩)
      · exact Or.inl (Or.inl h)
      · exact Or.inl (Or.inr (hs ▸ hw))
      · exact Or.inr ⟨s, hs, hw⟩

/-- The seed-expansion loop preserves duplicate-freeness. -/
lemma nodup_expand_seeds_fold (gw gh : ℕ) (seeds : List (ℕ × ℕ)) :
    ∀ (acc : List (ℕ × ℕ)), acc.Nodup →
      (seeds.foldl (fun acc seed =>
          (sel_new_tiles_big_window seed.1 seed.2 gw gh 2).foldl
            (fun acc2 t2 => if t2 ∈ acc2 then acc2 else acc2 ++ [t2]) acc) acc).Nodup := by
  induction seeds with
  | nil => intro acc h; simpa using h
  | cons sd sds ih =>
    intro acc h
    exact ih _ (nodup_dedup_append_fold _ acc h)

/-- With a river query returning no tiles, `create_initial_tiles` is the
centre-fallback block expanded by the seed windows. -/
lemma create_initial_tiles_no_rivers_eq (river_tiles : ℕ → ℕ → List (ℕ × ℕ))
    (hr : ∀ a b, river_tiles a b = []) (gw gh : ℕ) :
    create_initial_tiles river_tiles gw gh =
      (sel_new_tiles_big_window (gw / 2) (gh / 2) gw gh 3).foldl (fun acc seed =>
        (sel_new_tiles_big_window seed.1 seed.2 gw gh 2).foldl
          (fun acc2 t2 => if t2 ∈ acc2 then acc2 else acc2 ++ [t2]) acc)
        (sel_new_tiles_big_window (gw / 2) (gh / 2) gw gh 3) := by
  simp [create_initial_tiles, hr]

/-- Counterexample to claim C8 as stated: on a 10×10 lattice with no rivers,
the seeding result is not the centred 5×5 block expanded by ±2 neighbourhoods
(which would be the coordinates 1..9): the fallback block is `range(2, 8)²`
(`add=3`, exclusive upper end) and expansion windows are `range(v-2, v+2)`,
so (0, 0) is selected and (9, 9) is not — the opposite of what the claim
implies. -/
theorem create_initial_tiles_not_centred_5x5_cex :
    (0, 0) ∈ create_initial_tiles (fun _ _ => []) 10 10 ∧
    (9, 9) ∉ create_initial_tiles (fun _ _ => []) 10 10 := by
  rw [create_initial_tiles_no_rivers_eq (fun _ _ => []) (fun _ _ => rfl) 10 10]
  constructor
  · rw [mem_expand_seeds_fold]
    refine Or.inr ⟨(2, 2), ?_, ?_⟩
    · rw [mem_sel_new_tiles_big_window]
      omega
    · rw [mem_sel_new_tiles_big_window]
      omega
  · rw [mem_expand_seeds_fold]
    rintro (h | ⟨s, hs, hw⟩)
    · rw [mem_sel_new_tiles_big_window] at h
      omega
    · rw [mem_sel_new_tiles_big_window] at hs hw
      omega

/-- Claim C8, amended: on a 10×10 lattice with a river set yielding no tiles,
seeding falls back to the centred block `range(2, 8)²` (offsets `[-3, +3)` of
the centre (5, 5) — a 6×6 block, not 5×5), and every seed is expanded by its
`[-2, +2)` window clipped to lattice bounds with duplicates removed; the
resulting tile set is exactly all coordinates (a, b) with a ≤ 8 and b ≤ 8,
duplicate-free. -/
theorem create_initial_tiles_no_rivers_10x10 (river_tiles : ℕ → ℕ → List (ℕ × ℕ))
    (hr : ∀ a b, river_tiles a b = []) :
    (∀ t ∈ create_initial_tiles river_tiles 10 10, t.1 ≤ 8 ∧ t.2 ≤ 8) ∧
    (∀ a < 9, ∀ b < 9, (a, b) ∈ create_initial_tiles river_tiles 10 10) ∧
    (create_initial_tiles river_tiles 10 10).Nodup := by
  rw [create_initial_tiles_no_rivers_eq river_tiles hr 10 10]
  refine ⟨?_, ?_, ?_⟩
  · intro t ht
    rw [mem_expand_seeds_fold] at ht
    rcases ht with h | ⟨s, hs, hw⟩
    · rw [mem_sel_new_tiles_big_window] at h
      omega
    · rw [mem_sel_new_tiles_big_window] at hs hw
      omega
  · intro a ha b hb
    rw [mem_expand_seeds_fold]
    refine Or.inr ⟨(max 2 (min 7 (a + 1)), max 2 (min 7 (b + 1))), ?_, ?_⟩
    · rw [mem_sel_new_tiles_big_window]
      omega
    · rw [mem_sel_new_tiles_big_window]
      omega
  · exact nodup_expand_seeds_fold 10 10 _ _ (sel_new_tiles_big_window_nodup 5 5 10 10 3)

/-- Witness for C8 (amended): the concrete all-empty river query. -/
theorem create_initial_tiles_no_rivers_10x10_witness :
    (∀ a b : ℕ, (fun _ _ => ([] : List (ℕ × ℕ))) a b = []) ∧
    ((∀ t ∈ create_initial_tiles (fun _ _ => []) 10 10, t.1 ≤ 8 ∧ t.2 ≤ 8) ∧
      (∀ a < 9, ∀ b < 9, (a, b) ∈ create_initial_tiles (fun _ _ => []) 10 10) ∧
      (create_initial_tiles (fun _ _ => []) 10 10).Nodup) :=
  ⟨fun _ _ => rfl, create_initial_tiles_no_rivers_10x10 (fun _ _ => []) (fun _ _ => rfl)⟩

/-- Counterexample to claim C9 as stated: rejection is not "strictly more
than the configured fraction" of near-zero pixels — a 20-pixel tensor with
exactly one near-zero pixel (exactly the default fraction 1/20) and no NaN is
rejected by the code (`count < size*threshold` fails at equality), while the
claim says only a strictly larger fraction is rejected. -/
theorem s1_edge_heuristic_strict_fraction_cex :
    s1_preprocess_edge_heuristic
      [[some 0, some 1, some 1, some 1, some 1, some 1, some 1, some 1, some 1, some 1,
        some 1, some 1, some 1, some 1, some 1, some 1, some 1, some 1, some 1, some 1]]
      (1 / 20) = false ∧
    (∀ t ∈ [[some (0 : ℚ), some 1, some 1, some 1, some 1, some 1, some 1, some 1, some 1,
        some 1, some 1, some 1, some 1, some 1, some 1, some 1, some 1, some 1, some 1,
        some 1]], none ∉ t) ∧
    (∀ t ∈ [[some (0 : ℚ), some 1, some 1, some 1, some 1, some 1, some 1, some 1, some 1,
        some 1, some 1, some 1, some 1, some 1, some 1, some 1, some 1, some 1, some 1,
        some 1]], ¬ (((t.countP near_zero : ℕ) : ℚ) > (t.length : ℚ) * (1 / 20))) := by
  refine ⟨?_, ?_, ?_⟩
  · norm_num [s1_preprocess_edge_heuristic, near_zero]
  · intro t ht
    simp only [List.mem_singleton] at ht
    subst ht
    simp
  · intro t ht
    simp only [List.mem_singleton] at ht
    subst ht
    norm_num [near_zero]

/-- Claim C9, amended: the edge-validity heuristic rejects its inputs if and
only if some input tensor contains at least one NaN pixel, or some input
tensor has at least the configured fraction of near-zero pixels (count ≥
size × threshold — equality already rejects, since the code accepts only a
strictly smaller count); otherwise the inputs are accepted. -/
theorem s1_edge_heuristic_rejects_iff (tensors : List (List (Option ℚ))) (threshold : ℚ) :
    s1_preprocess_edge_heuristic tensors threshold = false ↔
      (∃ t ∈ tensors, none ∈ t) ∨
      (∃ t ∈ tensors, (t.length : ℚ) * threshold ≤ ((t.countP near_zero : ℕ) : ℚ)) := by
  rw [← Bool.not_eq_true]
  simp [s1_preprocess_edge_heuristic, List.all_eq_true, not_lt, List.countP_eq_zero,
    not_and_or, not_forall]
  constructor
  · intro h
    by_cases ha : ∀ x ∈ tensors, ∀ a ∈ x, ¬ a = none
    · exact Or.inr (h ha)
    · left
      push_neg at ha
      obtain ⟨t, ht, v, hv, hvn⟩ := ha
      exact ⟨t, ht, hvn ▸ hv⟩
  · rintro (⟨t, ht, hn⟩ | he)
    · intro ha
      exact absurd rfl (ha t ht none hn)
    · intro _
      exact he

/-- Claim C7: whenever the validity polygon's pixel bounding box, shrunk
inward by one pixel on each side, has non-positive width or height, the Grid
Builder signals `InvalidFootprint` instead of returning lattices. -/
theorem mk_grid_invalid_footprint (xlo ylo xhi yhi : ℚ) (gridsize : ℕ)
    (hdeg : (⌊xhi⌋ - 1) - (⌈xlo⌉ + 1) ≤ 0 ∨ (⌊yhi⌋ - 1) - (⌈ylo⌉ + 1) ≤ 0) :
    mk_grid xlo ylo xhi yhi gridsize = Except.error GridError.InvalidFootprint := by
  simp only [mk_grid]
  rw [if_pos hdeg]

/-- Witness for C7: a footprint 2.5 pixels wide shrinks to zero width. -/
theorem mk_grid_invalid_footprint_witness :
    ((⌊(5 / 2 : ℚ)⌋ - 1) - (⌈(0 : ℚ)⌉ + 1) ≤ 0 ∨ (⌊(10 : ℚ)⌋ - 1) - (⌈(0 : ℚ)⌉ + 1) ≤ 0) ∧
    mk_grid 0 0 (5 / 2) 10 224 = Except.error GridError.InvalidFootprint := by
  have hdeg : (⌊(5 / 2 : ℚ)⌋ - 1) - (⌈(0 : ℚ)⌉ + 1) ≤ 0 ∨
      (⌊(10 : ℚ)⌋ - 1) - (⌈(0 : ℚ)⌉ + 1) ≤ 0 := by
    left
    norm_num
  exact ⟨hdeg, mk_grid_invalid_footprint 0 0 (5 / 2) 10 224 hdeg⟩

/-- Claim C10: whatever the smoothing pass does, every pixel that equals the
nodata value in the input raster equals nodata in the output raster — the
masked restore happens after smoothing, so no previously-nodata pixel is ever
assigned a class. -/
theorem postprocess_classes_preserves_nodata
    (post : (ℕ × ℕ → ℕ) → (ℕ × ℕ → Bool) → (ℕ × ℕ → ℕ))
    (floodmaps : ℕ × ℕ → ℕ) (nodata : ℕ) (p : ℕ × ℕ)
    (hp : floodmaps p = nodata) :
    postprocess_classes post floodmaps nodata p = nodata := by
  simp [postprocess_classes, hp]

/-- Witness for C10: a raster that is nodata (255) at the chosen pixel, with
a smoothing pass that overwrites everything with class 1. -/
theorem postprocess_classes_preserves_nodata_witness :
    (fun _ : ℕ × ℕ => 255) (3, 4) = 255 ∧
    postprocess_classes (fun _ _ => fun _ => 1) (fun _ => 255) 255 (3, 4) = 255 :=
  ⟨rfl, postprocess_classes_preserves_nodata (fun _ _ => fun _ => 1) (fun _ => 255) 255 (3, 4) rfl⟩

